import Mathlib

/-!
Shallow embedding of the shov-mcp server core (src/index.js: class ShovMCPServer).
The embedding covers: JSON values as produced by `JSON.parse`, the SSE stream
normalizer `handleSSEStream`, the argument classification and request building
of `callTool`, the error handling of the HTTP response, `fetchManifest`,
the empty-manifest check of `start`, and the `tools/call` lookup handler.
-/

/-- Left curly brace character (we avoid brace literals inside strings). -/
def lbrace : Char := Char.ofNat 123

/-- Right curly brace character. -/
def rbrace : Char := Char.ofNat 125

/-- Single-quote character. -/
def squote : Char := Char.ofNat 39

/-- JSON values as produced by JavaScript `JSON.parse`. Numbers keep their raw
literal text: ECMAScript represents them as IEEE doubles, whose formatting is
outside the scope of this embedding (no claim evaluates a number). -/
inductive Json where
  | null
  | bool (b : Bool)
  | num (raw : String)
  | str (s : String)
  | arr (elems : List Json)
  | obj (fields : List (String × Json))

/-- Property access `j.k` on a parsed JSON value: on objects the last duplicate
key wins (as in JavaScript object construction); on every non-object value the
access yields `undefined`, modelled as `none`. -/
def Json.getField : Json → String → Option Json
  | .obj fields, k => fields.foldl (fun acc kv => if kv.1 == k then some kv.2 else acc) none
  | _, _ => none

/-- Whether a JSON number literal denotes zero (all mantissa digits are zero).
Double-precision underflow of extreme exponents is not modelled; no claim
exercises it. -/
def numLitIsZero (raw : String) : Bool :=
  let cs := raw.toList
  let cs2 := match cs with
    | c :: rest => if c = '-' then rest else cs
    | [] => []
  let mant := cs2.takeWhile (fun c => !(c = 'e' || c = 'E'))
  mant.all (fun c => !c.isDigit || c = '0')

/-- JavaScript truthiness of a JSON value (`undefined` is handled by callers
via `Option`). -/
def jsTruthy : Json → Bool
  | .null => false
  | .bool b => b
  | .num raw => !(numLitIsZero raw)
  | .str s => !s.isEmpty
  | .arr _ => true
  | .obj _ => true

mutual
/-- JavaScript string coercion `String(v)` of a JSON value. For numbers the raw
literal is kept (double formatting is out of scope; exact for plain integers). -/
def jsToString : Json → String
  | .null => "null"
  | .bool b => if b then "true" else "false"
  | .num raw => raw
  | .str s => s
  | .arr xs => jsArrayToString xs
  | .obj _ => "[object Object]"

/-- `Array.prototype.toString`: elements joined by commas, `null` becoming
the empty string. -/
def jsArrayToString : List Json → String
  | [] => ""
  | x :: xs =>
    let hd := match x with
      | .null => ""
      | j => jsToString j
    match xs with
    | [] => hd
    | _ :: _ => hd ++ "," ++ jsArrayToString xs
end

/-- Skip JSON whitespace (space, tab, newline, carriage return). -/
def skipWs : List Char → List Char
  | c :: cs =>
    if c = ' ' || c = '\t' || c = '\n' || c = '\r' then skipWs cs else c :: cs
  | [] => []

/-- Value of a hexadecimal digit. -/
def hexVal (c : Char) : Option Nat :=
  if c.isDigit then some (c.toNat - 48)
  else if 65 ≤ c.toNat ∧ c.toNat ≤ 70 then some (c.toNat - 55)
  else if 97 ≤ c.toNat ∧ c.toNat ≤ 102 then some (c.toNat - 87)
  else none

/-- Parse the body of a JSON string (after the opening quote), returning the
decoded characters and the remaining input. Standard JSON escapes are handled;
surrogate pairs in QuotedUnicode escapes are outside the model (no claim uses them). -/
def parseStringBody : Nat → List Char → Option (List Char × List Char)
  | 0, _ => none
  | _ + 1, [] => none
  | fuel + 1, c :: cs =>
    if c = '"' then some ([], cs)
    else if c = '\\' then
      match cs with
      | [] => none
      | e :: cs2 =>
        if e = '"' || e = '\\' || e = '/' then
          (parseStringBody fuel cs2).map (fun r => (e :: r.1, r.2))
        else if e = 'b' then (parseStringBody fuel cs2).map (fun r => (Char.ofNat 8 :: r.1, r.2))
        else if e = 'f' then (parseStringBody fuel cs2).map (fun r => (Char.ofNat 12 :: r.1, r.2))
        else if e = 'n' then (parseStringBody fuel cs2).map (fun r => (Char.ofNat 10 :: r.1, r.2))
        else if e = 'r' then (parseStringBody fuel cs2).map (fun r => (Char.ofNat 13 :: r.1, r.2))
        else if e = 't' then (parseStringBody fuel cs2).map (fun r => (Char.ofNat 9 :: r.1, r.2))
        else if e = 'u' then
          match cs2 with
          | h1 :: h2 :: h3 :: h4 :: cs3 =>
            match hexVal h1, hexVal h2, hexVal h3, hexVal h4 with
            | some a, some b, some c4, some d =>
              (parseStringBody fuel cs3).map
                (fun r => (Char.ofNat (a * 4096 + b * 256 + c4 * 16 + d) :: r.1, r.2))
            | _, _, _, _ => none
          | _ => none
        else none
    else if c.toNat < 32 then none
    else (parseStringBody fuel cs).map (fun r => (c :: r.1, r.2))

/-- Longest prefix of decimal digits. -/
def digitSpan : List Char → List Char × List Char
  | [] => ([], [])
  | c :: cs => if c.isDigit then
      let r := digitSpan cs
      (c :: r.1, r.2)
    else ([], c :: cs)

/-- JSON integer part: `0`, or a nonzero digit followed by digits. -/
def parseIntPart : List Char → Option (List Char × List Char)
  | [] => none
  | c :: cs =>
    if c = '0' then some (['0'], cs)
    else if c.isDigit then
      let r := digitSpan cs
      some (c :: r.1, r.2)
    else none

/-- Parse a JSON number, keeping its raw lexeme. -/
def parseNumber (input : List Char) : Option (Json × List Char) :=
  let signSplit : List Char × List Char := match input with
    | c :: cs => if c = '-' then (['-'], cs) else ([], input)
    | [] => ([], [])
  match parseIntPart signSplit.2 with
  | none => none
  | some (ip, rest2) =>
    let fracSplit : List Char × List Char := match rest2 with
      | c :: cs =>
        if c = '.' then
          match digitSpan cs with
          | ([], _) => ([], rest2)
          | (ds, r) => ('.' :: ds, r)
        else ([], rest2)
      | [] => ([], [])
    let rest3 := fracSplit.2
    let expSplit : List Char × List Char := match rest3 with
      | c :: cs =>
        if c = 'e' || c = 'E' then
          match cs with
          | s :: cs2 =>
            if s = '+' || s = '-' then
              match digitSpan cs2 with
              | ([], _) => ([], rest3)
              | (ds, r) => (c :: s :: ds, r)
            else
              match digitSpan cs with
              | ([], _) => ([], rest3)
              | (ds, r) => (c :: ds, r)
          | [] => ([], rest3)
        else ([], rest3)
      | [] => ([], [])
    some (.num (signSplit.1 ++ ip ++ fracSplit.1 ++ expSplit.1).asString, expSplit.2)

mutual
/-- Recursive-descent JSON value, fuelled for termination. -/
def parseValue : Nat → List Char → Option (Json × List Char)
  | 0, _ => none
  | fuel + 1, input =>
    match skipWs input with
    | [] => none
    | c :: cs =>
      if c = lbrace then
        match skipWs cs with
        | d :: ds => if d = rbrace then some (.obj [], ds) else parseMembers fuel (d :: ds)
        | [] => none
      else if c = '[' then
        match skipWs cs with
        | d :: ds => if d = ']' then some (.arr [], ds) else parseElems fuel (d :: ds)
        | [] => none
      else if c = '"' then
        match parseStringBody (cs.length + 1) cs with
        | some (content, rest) => some (.str content.asString, rest)
        | none => none
      else if c = 't' then
        match cs with
        | 'r' :: 'u' :: 'e' :: rest => some (.bool true, rest)
        | _ => none
      else if c = 'f' then
        match cs with
        | 'a' :: 'l' :: 's' :: 'e' :: rest => some (.bool false, rest)
        | _ => none
      else if c = 'n' then
        match cs with
        | 'u' :: 'l' :: 'l' :: rest => some (.null, rest)
        | _ => none
      else parseNumber (c :: cs)

/-- One or more `"key": value` members of a JSON object, starting at a
non-whitespace character, up to and including the closing brace. -/
def parseMembers : Nat → List Char → Option (Json × List Char)
  | 0, _ => none
  | fuel + 1, input =>
    match input with
    | [] => none
    | c :: cs =>
      if c = '"' then
        match parseStringBody (cs.length + 1) cs with
        | none => none
        | some (key, rest) =>
          match skipWs rest with
          | ':' :: rest2 =>
            match parseValue fuel rest2 with
            | none => none
            | some (v, rest3) =>
              match skipWs rest3 with
              | ',' :: rest4 =>
                match parseMembers fuel (skipWs rest4) with
                | some (.obj fields, rest5) => some (.obj ((key.asString, v) :: fields), rest5)
                | _ => none
              | d :: rest4 =>
                if d = rbrace then some (.obj [(key.asString, v)], rest4) else none
              | [] => none
          | _ => none
      else none

/-- One or more elements of a JSON array, up to and including the closing
bracket. -/
def parseElems : Nat → List Char → Option (Json × List Char)
  | 0, _ => none
  | fuel + 1, input =>
    match parseValue fuel input with
    | none => none
    | some (v, rest) =>
      match skipWs rest with
      | ',' :: rest2 =>
        match parseElems fuel (skipWs rest2) with
        | some (.arr xs, rest3) => some (.arr (v :: xs), rest3)
        | _ => none
      | ']' :: rest2 => some (.arr [v], rest2)
      | _ => none
end

/-- Model of `JSON.parse`: parse one value and require only whitespace to
remain. -/
def jsonParse (s : String) : Option Json :=
  match parseValue (s.length + 1) s.toList with
  | some (j, rest) => if (skipWs rest).isEmpty then some j else none
  | none => none

/-! ## SSE stream normalizer (handleSSEStream, src/index.js lines 185-267) -/

/-- State of the stream-consuming loop: the line-assembly buffer, the recorded
events, and the accumulated text. -/
structure SSEState where
  buffer : List Char
  events : List Json
  streamedText : String

/-- The event pushed when a payload is not valid JSON:
`events.push(... type: 'text', content: data ...)`. -/
def textEvent (raw : String) : Json :=
  .obj [("type", .str "text"), ("content", .str raw)]

/-- The `parsed.text` fallback of `parsed.content || parsed.text || ''`. -/
def fallbackText (parsed : Json) : String :=
  match parsed.getField ("text") with
  | some t => if jsTruthy t then jsToString t else ""
  | none => ""

/-- Handling of a successfully parsed payload (lines 216-227): the event is
pushed, and for type `chunk`/`delta` the value of
`parsed.content || parsed.text || ''` is appended to the accumulated text.
A parsed `null` is pushed, then `parsed.type` throws a `TypeError` which the
surrounding catch treats as the not-JSON case, pushing a second, text event. -/
def handleParsedEvent (events : List Json) (text : String) (parsed : Json) (raw : String) :
    List Json × String :=
  match parsed with
  | .null => (events ++ [Json.null, textEvent raw], text ++ raw)
  | _ =>
    let events2 := events ++ [parsed]
    let isChunkDelta := match parsed.getField ("type") with
      | some (.str s) => s == "chunk" || s == "delta"
      | _ => false
    if isChunkDelta then
      let appended := match parsed.getField ("content") with
        | some c => if jsTruthy c then jsToString c else fallbackText parsed
        | none => fallbackText parsed
      (events2, text ++ appended)
    else (events2, text)

/-- Processing of one complete line (lines 204-234): only lines starting with
`data: ` are considered; the `[DONE]` sentinel is skipped; otherwise the
payload is parsed as JSON, falling back to a plain-text event. -/
def applyLine (events : List Json) (text : String) (line : List Char) : List Json × String :=
  if List.isPrefixOf (("data: ").toList) line then
    let raw : String := (line.drop 6).asString
    if raw == "[DONE]" then (events, text)
    else match jsonParse raw with
      | some parsed => handleParsedEvent events text parsed raw
      | none => (events ++ [textEvent raw], text ++ raw)
  else (events, text)

/-- JavaScript `buffer.split(newline)`: split on every newline, never
collapsing, always returning at least one (possibly empty) piece. -/
def splitNl : List Char → List (List Char)
  | [] => [[]]
  | c :: cs =>
    if c = '\n' then [] :: splitNl cs
    else
      match splitNl cs with
      | [] => [[c]]
      | l :: ls => (c :: l) :: ls

/-- Process all pieces but the last through `applyLine`; the last piece is the
incomplete fragment `lines.pop()` kept as the new buffer. -/
def consumeLines (events : List Json) (text : String) : List (List Char) → SSEState
  | [] => ⟨[], events, text⟩
  | [l] => ⟨l, events, text⟩
  | l :: l2 :: rest =>
    let p := applyLine events text l
    consumeLines p.1 p.2 (l2 :: rest)

/-- One iteration of the read loop (lines 200-235): append the decoded chunk to
the buffer, split on newlines, process the complete lines, and keep the final
fragment buffered. -/
def processChunk (st : SSEState) (chunk : List Char) : SSEState :=
  consumeLines st.events st.streamedText (splitNl (st.buffer ++ chunk))

/-- The three shapes of the normalized result returned at stream end
(lines 241-262). -/
inductive StreamResult where
  | withText (content : String) (events : List Json) (eventCount : Nat)
  | eventsOnly (events : List Json) (eventCount : Nat)
  | emptyStream (message : String)

/-- Build the result at stream end: accumulated text if any, else the events,
else an explicit empty-stream message. -/
def finalizeStream (st : SSEState) : StreamResult :=
  if st.streamedText.isEmpty then
    if st.events.length > 0 then .eventsOnly st.events st.events.length
    else .emptyStream ("Stream completed with no data")
  else .withText st.streamedText st.events st.events.length

/-- Initial state of the stream loop: empty buffer, no events, no text. -/
def initSSEState : SSEState := ⟨[], [], ""⟩

/-- The whole of `handleSSEStream`, with the successive `reader.read()` chunks
(after text decoding) given as a list of strings. A trailing incomplete
fragment left in the buffer at stream end is discarded, as in the source. -/
def handleSSEStream (chunks : List String) : StreamResult :=
  finalizeStream (chunks.foldl (fun st c => processChunk st c.toList) initSSEState)

/-! ## Argument classification and request building (callTool, lines 112-162) -/

/-- Substring containment, JavaScript `s.includes(pat)`. -/
def containsSub (pat : List Char) : List Char → Bool
  | [] => pat.isEmpty
  | c :: cs => List.isPrefixOf pat (c :: cs) || containsSub pat cs

/-- JavaScript `s.replace(pat, repl)` with a string pattern: replace only the
first occurrence, or return the string unchanged when the pattern is absent. -/
def replaceFirst (pat repl : List Char) : List Char → List Char
  | [] => if pat.isEmpty then repl else []
  | c :: cs =>
    if List.isPrefixOf pat (c :: cs) then repl ++ (c :: cs).drop pat.length
    else c :: replaceFirst pat repl cs

/-- String-level wrapper of `containsSub`. -/
def containsSubStr (s pat : String) : Bool := containsSub pat.toList s.toList

/-- String-level wrapper of `replaceFirst`. -/
def replaceFirstStr (s pat repl : String) : String :=
  (replaceFirst pat.toList repl.toList s.toList).asString

/-- The placeholder searched for an argument key: an open brace, the key, and a
close brace. -/
def placeholderOf (key : String) : String :=
  lbrace.toString ++ key ++ rbrace.toString

/-- Whether a character is left unescaped by `encodeURIComponent`. -/
def encodeURIUnreserved (c : Char) : Bool :=
  c.isAlphanum || c = '-' || c = '_' || c = '.' || c = '!' || c = '~' || c = '*' ||
    c = squote || c = '(' || c = ')'

/-- UTF-8 bytes of a character. -/
def utf8Bytes (c : Char) : List Nat :=
  let n := c.toNat
  if n < 128 then [n]
  else if n < 2048 then [192 + n / 64, 128 + n % 64]
  else if n < 65536 then [224 + n / 4096, 128 + n / 64 % 64, 128 + n % 64]
  else [240 + n / 262144, 128 + n / 4096 % 64, 128 + n / 64 % 64, 128 + n % 64]

/-- Uppercase hexadecimal digit. -/
def hexDigitUpper (n : Nat) : Char :=
  if n < 10 then Char.ofNat (48 + n) else Char.ofNat (55 + n)

/-- Percent-encoding of one byte, uppercase. -/
def percentByte (b : Nat) : List Char :=
  ['%', hexDigitUpper (b / 16), hexDigitUpper (b % 16)]

/-- JavaScript `encodeURIComponent`. -/
def encodeURIComponent (s : String) : String :=
  (s.toList.flatMap (fun c =>
    if encodeURIUnreserved c then [c] else (utf8Bytes c).flatMap percentByte)).asString

/-- Whether a character is left unescaped by the form-urlencoded serializer of
`URLSearchParams` (space is handled separately). -/
def formUrlUnreserved (c : Char) : Bool :=
  c.isAlphanum || c = '*' || c = '-' || c = '.' || c = '_'

/-- Form-urlencoded escaping of one component. -/
def formUrlEncode (s : String) : String :=
  (s.toList.flatMap (fun c =>
    if c = ' ' then ['+']
    else if formUrlUnreserved c then [c]
    else (utf8Bytes c).flatMap percentByte)).asString

/-- `new URLSearchParams(queryParams).toString()`, values coerced to strings. -/
def urlSearchParamsToString (params : List (String × Json)) : String :=
  String.intercalate ("&")
    (params.map (fun kv => formUrlEncode kv.1 ++ "=" ++ formUrlEncode (jsToString kv.2)))

/-- The state grown by the classification loop of `callTool` (lines 116-131). -/
structure ClassifyState where
  requestUrl : String
  pathParams : List (String × Json)
  queryParams : List (String × Json)
  bodyParams : List (String × Json)

/-- One iteration of the classification loop: a key whose placeholder occurs in
the current URL is a path parameter and is substituted (first occurrence);
otherwise GET/DELETE send it to the query, and any other method to the body. -/
def classifyStep (method : String) (st : ClassifyState) (kv : String × Json) : ClassifyState :=
  if containsSubStr st.requestUrl (placeholderOf kv.1) then
    { st with
      pathParams := st.pathParams ++ [kv]
      requestUrl := replaceFirstStr st.requestUrl (placeholderOf kv.1)
        (encodeURIComponent (jsToString kv.2)) }
  else if method == "GET" || method == "DELETE" then
    { st with queryParams := st.queryParams ++ [kv] }
  else
    { st with bodyParams := st.bodyParams ++ [kv] }

/-- The classification loop over all arguments, in insertion order. -/
def classifyArgs (url method : String) (args : List (String × Json)) : ClassifyState :=
  args.foldl (classifyStep method) ⟨url, [], [], []⟩

/-- Lowercase hexadecimal digit. -/
def hexDigitLower (n : Nat) : Char :=
  if n < 10 then Char.ofNat (48 + n) else Char.ofNat (87 + n)

/-- `JSON.stringify` escaping of one string character. -/
def stringifyChar (c : Char) : List Char :=
  if c = '"' then ['\\', '"']
  else if c = '\\' then ['\\', '\\']
  else if c = Char.ofNat 8 then ['\\', 'b']
  else if c = Char.ofNat 9 then ['\\', 't']
  else if c = Char.ofNat 10 then ['\\', 'n']
  else if c = Char.ofNat 12 then ['\\', 'f']
  else if c = Char.ofNat 13 then ['\\', 'r']
  else if c.toNat < 32 then
    ['\\', 'u', '0', '0', hexDigitLower (c.toNat / 16), hexDigitLower (c.toNat % 16)]
  else [c]

/-- `JSON.stringify` of a string. -/
def stringifyString (s : String) : String :=
  ('"' :: s.toList.flatMap stringifyChar ++ ['"']).asString

mutual
/-- `JSON.stringify` of a JSON value (compact form, no spacing). -/
def jsonStringify : Json → String
  | .null => "null"
  | .bool b => if b then "true" else "false"
  | .num raw => raw
  | .str s => stringifyString s
  | .arr xs => "[" ++ jsonStringifyElems xs ++ "]"
  | .obj fs => lbrace.toString ++ jsonStringifyFields fs ++ rbrace.toString

/-- Comma-joined stringified array elements. -/
def jsonStringifyElems : List Json → String
  | [] => ""
  | [x] => jsonStringify x
  | x :: y :: xs => jsonStringify x ++ "," ++ jsonStringifyElems (y :: xs)

/-- Comma-joined stringified object members. -/
def jsonStringifyFields : List (String × Json) → String
  | [] => ""
  | [kv] => stringifyString kv.1 ++ ":" ++ jsonStringify kv.2
  | kv :: kv2 :: fs =>
    stringifyString kv.1 ++ ":" ++ jsonStringify kv.2 ++ "," ++ jsonStringifyFields (kv2 :: fs)
end

/-- The outgoing HTTP request assembled by `callTool` (lines 133-156). -/
structure HttpRequest where
  url : String
  method : String
  headers : List (String × String)
  body : Option String

/-- Build the request: append the query string when there are query
parameters, fixed headers, and a JSON body only for POST/PUT/PATCH with a
non-empty body mapping. -/
def buildRequest (apiKey url method : String) (args : List (String × Json)) : HttpRequest :=
  let st := classifyArgs url method args
  let requestUrl :=
    if st.queryParams.length > 0 then
      st.requestUrl ++ "?" ++ urlSearchParamsToString st.queryParams
    else st.requestUrl
  { url := requestUrl
    method := method
    headers :=
      [("Authorization", "Bearer " ++ apiKey),
       ("Content-Type", "application/json"),
       ("User-Agent", "shov-mcp/1.0.0"),
       ("Accept", "application/json, text/event-stream")]
    body :=
      if (method == "POST" || method == "PUT" || method == "PATCH")
          && st.bodyParams.length > 0 then
        some (jsonStringify (.obj st.bodyParams))
      else none }

/-- The relevant parts of a `fetch` response. -/
structure HttpResponse where
  status : Nat
  statusText : String
  contentType : Option String
  bodyText : String

/-- `response.ok`: status in the inclusive range 200-299. -/
def responseOk (r : HttpResponse) : Bool :=
  decide (200 ≤ r.status) && decide (r.status ≤ 299)

/-- The three result shapes of `callTool`: a normalized stream, parsed JSON, or
raw text. -/
inductive CallResult where
  | streamResult (r : StreamResult)
  | jsonValue (j : Json)
  | textValue (s : String)

/-- A modelled stand-in for the engine-specific `SyntaxError` message raised by
`response.json()` on malformed JSON. -/
def jsonSyntaxErrorMessage : String := "Unexpected token in JSON"

/-- Response handling of `callTool` (lines 158-179): non-success status raises
an error carrying the status and the verbatim body; otherwise the content type
selects stream normalization, JSON parsing, or raw text. The stream's decoded
chunks are supplied as an explicit input. -/
def handleResponse (resp : HttpResponse) (chunks : List String) : Except String CallResult :=
  if !(responseOk resp) then
    .error ("API error (" ++ toString resp.status ++ "): " ++ resp.bodyText)
  else
    match resp.contentType with
    | some ct =>
      if containsSubStr ct ("text/event-stream") then
        .ok (.streamResult (handleSSEStream chunks))
      else if containsSubStr ct ("application/json") then
        match jsonParse resp.bodyText with
        | some j => .ok (.jsonValue j)
        | none => .error jsonSyntaxErrorMessage
      else .ok (.textValue resp.bodyText)
    | none => .ok (.textValue resp.bodyText)

/-- The whole of `callTool` for one tool handler: the request it issues and the
result of handling the (externally supplied) response. -/
def callTool (apiKey url method : String) (args : List (String × Json))
    (resp : HttpResponse) (chunks : List String) : HttpRequest × Except String CallResult :=
  (buildRequest apiKey url method args, handleResponse resp chunks)

/-! ## Manifest fetch, startup check, and tool lookup (lines 21-79) -/

/-- Process-wide state: the cached manifest, `null` until fetched. -/
structure ServerState where
  manifest : Option Json

/-- The network's answer to the manifest fetch: unreachable (with the
underlying error message) or an HTTP response. -/
inductive NetResult where
  | unreachable (msg : String)
  | response (resp : HttpResponse)

/-- `fetchManifest` (lines 21-33): non-success status and malformed JSON are
rethrown by the catch block as a connection error; on success the parsed JSON
is cached in the server state and returned. -/
def fetchManifest (st : ServerState) (baseUrl : String) (net : NetResult) :
    Except String Json × ServerState :=
  match net with
  | .unreachable msg =>
    (.error ("Could not connect to " ++ baseUrl ++ "/mcp.json - " ++ msg), st)
  | .response r =>
    if !(responseOk r) then
      (.error ("Could not connect to " ++ baseUrl ++ "/mcp.json - " ++
        "Failed to fetch manifest: " ++ toString r.status ++ " " ++ r.statusText), st)
    else
      match jsonParse r.bodyText with
      | none =>
        (.error ("Could not connect to " ++ baseUrl ++ "/mcp.json - " ++
          jsonSyntaxErrorMessage), st)
      | some j => (.ok j, { manifest := some j })

/-- JavaScript `x.length === 0` for a JSON value: only arrays and strings have
a numeric `length`; on other values the comparison is false. -/
def jsLengthIsZero : Json → Bool
  | .arr xs => xs.isEmpty
  | .str s => s.isEmpty
  | _ => false

/-- The startup check of `start` (lines 42-44): fail when the manifest is
absent or falsy, its `tools` is absent or falsy, or `tools.length === 0`. -/
def startCheck (manifest : Option Json) : Except String Unit :=
  let failMsg := "No tools found in MCP manifest"
  match manifest with
  | none => .error failMsg
  | some m =>
    if !(jsTruthy m) then .error failMsg
    else
      match m.getField ("tools") with
      | none => .error failMsg
      | some t =>
        if !(jsTruthy t) then .error failMsg
        else if jsLengthIsZero t then .error failMsg
        else .ok ()

/-- The lookup of the `tools/call` handler (line 76):
`this.manifest.tools.find(t => t.name === toolName)`. -/
def findTool (manifest : Json) (toolName : String) : Option Json :=
  match manifest.getField ("tools") with
  | some (.arr ts) =>
    ts.find? (fun t =>
      match t.getField ("name") with
      | some (.str s) => s == toolName
      | _ => false)
  | _ => none

/-- The tool handler descriptor extracted from a manifest tool entry. -/
def toolHandlerOf (tool : Json) : Option (String × String) :=
  match tool.getField ("handler") with
  | some h =>
    match h.getField ("method"), h.getField ("url") with
    | some (.str m), some (.str u) => some (m, u)
    | _, _ => none
  | none => none

/-- The request issued by an invocation: look the tool up by name and build the
request from its handler descriptor and the arguments. -/
def invokeRequest (manifest : Json) (apiKey toolName : String)
    (args : List (String × Json)) : Option HttpRequest :=
  match findTool manifest toolName with
  | none => none
  | some tool =>
    match toolHandlerOf tool with
    | none => none
    | some mu => some (buildRequest apiKey mu.2 mu.1 args)

/-- The `tools/call` handler (lines 71-100) as a state transformer: an unknown
tool name fails with the not-found error and leaves the cached manifest
untouched; otherwise `callTool` runs against the supplied response. -/
def toolsCallStep (st : ServerState) (toolName : String) (args : List (String × Json))
    (apiKey : String) (resp : HttpResponse) (chunks : List String) :
    Except String CallResult × ServerState :=
  match st.manifest with
  | none => (.error ("no manifest"), st)
  | some mf =>
    match findTool mf toolName with
    | none =>
      (.error ("Tool " ++ squote.toString ++ toolName ++ squote.toString ++ " not found"), st)
    | some tool =>
      match toolHandlerOf tool with
      | none => (.error ("no handler"), st)
      | some mu => ((callTool apiKey mu.2 mu.1 args resp chunks).2, st)

/-! ## Character-level characterization of the stream loop (proof infrastructure) -/

/-- One character of stream input: a newline completes and processes the
buffered line, any other character extends the buffer. -/
def stepChar (st : SSEState) (c : Char) : SSEState :=
  if c = '\n' then
    let p := applyLine st.events st.streamedText st.buffer
    ⟨[], p.1, p.2⟩
  else ⟨st.buffer ++ [c], st.events, st.streamedText⟩

/-- Run the stream loop character by character. -/
def runChars (st : SSEState) (cs : List Char) : SSEState :=
  cs.foldl stepChar st

theorem splitNl_ne_nil (cs : List Char) : splitNl cs ≠ [] := by
  induction cs with
  | nil => simp [splitNl]
  | cons c cs ih =>
    simp only [splitNl]
    split
    · simp
    · split <;> simp

theorem splitNl_noNl (l : List Char) (h : '\n' ∉ l) : splitNl l = [l] := by
  induction l with
  | nil => rfl
  | cons c cs ih =>
    simp only [List.mem_cons, not_or] at h
    have hc : ¬ c = '\n' := fun hc => h.1 hc.symm
    simp only [splitNl, if_neg hc, ih h.2]

theorem splitNl_append_nl (p cs : List Char) (h : '\n' ∉ p) :
    splitNl (p ++ '\n' :: cs) = p :: splitNl cs := by
  induction p with
  | nil => simp [splitNl]
  | cons c p ih =>
    simp only [List.mem_cons, not_or] at h
    have hc : ¬ c = '\n' := fun hcc => h.1 hcc.symm
    have hrec := ih h.2
    simp only [List.cons_append, splitNl, if_neg hc]
    rw [show p.append ('\n' :: cs) = p ++ '\n' :: cs from rfl, hrec]

theorem consumeLines_cons (ev : List Json) (tx : String) (l : List Char)
    (rest : List (List Char)) (h : rest ≠ []) :
    consumeLines ev tx (l :: rest) =
      consumeLines (applyLine ev tx l).1 (applyLine ev tx l).2 rest := by
  cases rest with
  | nil => exact absurd rfl h
  | cons l2 ls => rfl

theorem consumeLines_eq_runChars (c : List Char) :
    ∀ (p : List Char) (ev : List Json) (tx : String), '\n' ∉ p →
      consumeLines ev tx (splitNl (p ++ c)) = runChars ⟨p, ev, tx⟩ c := by
  induction c with
  | nil =>
    intro p ev tx hp
    rw [List.append_nil, splitNl_noNl p hp]
    rfl
  | cons ch cs ih =>
    intro p ev tx hp
    by_cases hch : ch = '\n'
    · subst hch
      rw [splitNl_append_nl p cs hp,
        consumeLines_cons ev tx p (splitNl cs) (splitNl_ne_nil cs)]
      have h2 := ih [] (applyLine ev tx p).1 (applyLine ev tx p).2 (by simp)
      simp only [List.nil_append] at h2
      rw [h2]
      simp [runChars, stepChar]
    · have hsplit : p ++ ch :: cs = (p ++ [ch]) ++ cs := by simp
      rw [hsplit]
      have hp2 : '\n' ∉ p ++ [ch] := by
        simp only [List.mem_append, List.mem_singleton, not_or]
        exact ⟨hp, fun hh => hch hh.symm⟩
      rw [ih (p ++ [ch]) ev tx hp2]
      simp [runChars, stepChar, hch]

theorem processChunk_eq_runChars (st : SSEState) (c : List Char) (h : '\n' ∉ st.buffer) :
    processChunk st c = runChars st c := by
  have h2 := consumeLines_eq_runChars c st.buffer st.events st.streamedText h
  cases st
  exact h2

theorem runChars_buffer_noNl (c : List Char) :
    ∀ st : SSEState, '\n' ∉ st.buffer → '\n' ∉ (runChars st c).buffer := by
  induction c with
  | nil => intro st h; exact h
  | cons ch cs ih =>
    intro st h
    show '\n' ∉ (runChars (stepChar st ch) cs).buffer
    apply ih
    by_cases hch : ch = '\n'
    · simp [stepChar, hch]
    · simp only [stepChar, if_neg hch]
      simp only [List.mem_append, List.mem_singleton, not_or]
      exact ⟨h, fun hh => hch hh.symm⟩

theorem runChars_append (st : SSEState) (a b : List Char) :
    runChars st (a ++ b) = runChars (runChars st a) b := by
  simp [runChars]

theorem foldl_processChunk (chunks : List String) :
    ∀ st : SSEState, '\n' ∉ st.buffer →
      chunks.foldl (fun st c => processChunk st c.toList) st =
        runChars st (chunks.map String.toList).flatten := by
  induction chunks with
  | nil => intro st _; rfl
  | cons c cs ih =>
    intro st h
    simp only [List.foldl_cons, List.map_cons, List.flatten_cons]
    rw [processChunk_eq_runChars st c.toList h,
      ih (runChars st c.toList) (runChars_buffer_noNl c.toList st h),
      ← runChars_append]

theorem toList_join (l : List String) :
    (String.join l).toList = (l.map String.toList).flatten := by
  have hfun : String.toList = String.data := rfl
  rw [hfun]
  exact String.data_join l

/-! ## Claim theorems -/

/-- C1: for the SSE stream of the three lines `data: ...Hi...`,
`data: ... there...`, `data: [DONE]`, the normalizer returns a stream-kind
result whose accumulated text is "Hi there" and whose eventCount is 2; the
`[DONE]` sentinel is skipped and records no event. -/
theorem sse_stream_done_scenario :
    handleSSEStream
      ["data: \x7b\"type\":\"delta\",\"content\":\"Hi\"\x7d\ndata: \x7b\"type\":\"delta\",\"content\":\" there\"\x7d\ndata: [DONE]\n"] =
      .withText ("Hi there")
        [Json.obj [("type", Json.str "delta"), ("content", Json.str "Hi")],
         Json.obj [("type", Json.str "delta"), ("content", Json.str " there")]] 2 := rfl

/-- C2: feeding the stream as one single read produces exactly the same
normalized result (events and accumulated text) as feeding it split
arbitrarily across partial reads, including splits in the middle of a line. -/
theorem sse_stream_split_invariance (chunks : List String) :
    handleSSEStream chunks = handleSSEStream [String.join chunks] := by
  unfold handleSSEStream
  congr 1
  rw [foldl_processChunk chunks initSSEState (by simp [initSSEState]),
    foldl_processChunk [String.join chunks] initSSEState (by simp [initSSEState])]
  simp only [List.map_cons, List.map_nil, List.flatten_cons, List.flatten_nil,
    List.append_nil, toList_join]

/-- C10 counterexample: a chunk/delta event whose `content` is the JSON value
`true` (not a non-empty string) still appends text, namely the coerced string
"true", contradicting the claim that nothing is appended in that case. -/
theorem stream_truthy_nonstring_counterexample :
    handleSSEStream ["data: \x7b\"type\":\"delta\",\"content\":true\x7d\n"] =
      .withText ("true") [Json.obj [("type", Json.str "delta"), ("content", Json.bool true)]] 1 ∧
    ("true" : String) ≠ "" := ⟨rfl, by decide⟩

/-- C10 (amended): for every parsed chunk/delta event whose `content` and
`text` fields are each absent or strings: a non-empty `content` string is
appended and `text` never is, even when both are present; when `content` is
absent or empty the `text` string is appended instead; when neither is a
non-empty string nothing is appended; in every case the event is recorded. -/
theorem stream_content_text_precedence (fs : List (String × Json)) (ev : List Json)
    (tx raw : String)
    (htype : (Json.obj fs).getField ("type") = some (.str "chunk") ∨
      (Json.obj fs).getField ("type") = some (.str "delta")) :
    (∀ s : String, (Json.obj fs).getField ("content") = some (.str s) → s ≠ "" →
      handleParsedEvent ev tx (Json.obj fs) raw = (ev ++ [Json.obj fs], tx ++ s)) ∧
    (((Json.obj fs).getField ("content") = none ∨
        (Json.obj fs).getField ("content") = some (.str "")) →
      ∀ s : String, (Json.obj fs).getField ("text") = some (.str s) →
        handleParsedEvent ev tx (Json.obj fs) raw = (ev ++ [Json.obj fs], tx ++ s)) ∧
    (((Json.obj fs).getField ("content") = none ∨
        (Json.obj fs).getField ("content") = some (.str "")) →
      ((Json.obj fs).getField ("text") = none ∨
        (Json.obj fs).getField ("text") = some (.str "")) →
      handleParsedEvent ev tx (Json.obj fs) raw = (ev ++ [Json.obj fs], tx)) := by
  have hcd : (match (Json.obj fs).getField ("type") with
      | some (.str s) => s == "chunk" || s == "delta"
      | _ => false) = true := by
    rcases htype with h | h <;> rw [h] <;> simp
  have hee : ("" : String).isEmpty = true := rfl
  refine ⟨?_, ?_, ?_⟩
  · intro s hc hs
    have hse : s.isEmpty = false := by
      rw [Bool.eq_false_iff]
      intro hh
      exact hs ((String.isEmpty_iff s).mp hh)
    simp [handleParsedEvent, hcd, hc, jsTruthy, jsToString, hse]
  · intro hc s ht
    have hfb : fallbackText (Json.obj fs) = s := by
      simp only [fallbackText, ht, jsTruthy, jsToString]
      cases hse : s.isEmpty
      · simp
      · simp [(String.isEmpty_iff s).mp hse]
    rcases hc with h | h <;>
      simp [handleParsedEvent, hcd, h, jsTruthy, jsToString, hfb, hee]
  · intro hc ht
    have hfb : fallbackText (Json.obj fs) = "" := by
      rcases ht with h | h <;> simp [fallbackText, h, jsTruthy, hee]
    rcases hc with h | h <;>
      simp [handleParsedEvent, hcd, h, jsTruthy, jsToString, hfb, hee]

/-- Witness for the amended C10 theorem at three concrete events. -/
theorem stream_content_text_precedence_witness :
    handleParsedEvent [] "" (Json.obj [("type", Json.str "delta"), ("content", Json.str "Hi"),
        ("text", Json.str "T")]) "r" =
      ([Json.obj [("type", Json.str "delta"), ("content", Json.str "Hi"),
        ("text", Json.str "T")]], "Hi") ∧
    handleParsedEvent [] "" (Json.obj [("type", Json.str "delta"), ("text", Json.str "T")]) "r" =
      ([Json.obj [("type", Json.str "delta"), ("text", Json.str "T")]], "T") ∧
    handleParsedEvent [] "" (Json.obj [("type", Json.str "chunk")]) "r" =
      ([Json.obj [("type", Json.str "chunk")]], "") := by
  refine ⟨?_, ?_, ?_⟩
  · exact (stream_content_text_precedence
      [("type", Json.str "delta"), ("content", Json.str "Hi"), ("text", Json.str "T")]
      [] "" "r" (Or.inr rfl)).1 "Hi" rfl (by decide)
  · exact (stream_content_text_precedence
      [("type", Json.str "delta"), ("text", Json.str "T")]
      [] "" "r" (Or.inr rfl)).2.1 (Or.inl rfl) "T" rfl
  · exact (stream_content_text_precedence
      [("type", Json.str "chunk")]
      [] "" "r" (Or.inl rfl)).2.2 (Or.inl rfl) (Or.inl rfl)

theorem containsSub_nil_pat (s : List Char) : containsSub [] s = true := by
  cases s <;> simp [containsSub, List.isPrefixOf]

theorem containsSub_of_decomp (pat a b : List Char) :
    containsSub pat (a ++ (pat ++ b)) = true := by
  induction a with
  | nil =>
    cases pat with
    | nil => simpa using containsSub_nil_pat b
    | cons c cs =>
      simp only [List.nil_append, containsSub, Bool.or_eq_true]
      left
      exact List.isPrefixOf_iff_prefix.mpr (List.prefix_append _ _)
  | cons c a' ih =>
    simp only [List.cons_append, containsSub, Bool.or_eq_true]
    right
    exact ih

theorem containsSubStr_of_decomp (x pat y : String) :
    containsSubStr (x ++ pat ++ y) pat = true := by
  unfold containsSubStr
  have h : (x ++ pat ++ y).toList = x.toList ++ (pat.toList ++ y.toList) := by
    simp [String.toList, String.data_append]
  rw [h]
  exact containsSub_of_decomp _ _ _

/-- C6: a non-success HTTP status fails with an error message that carries
both the numeric status code and the raw response body verbatim. -/
theorem non_success_error_detail (resp : HttpResponse) (chunks : List String)
    (h : ¬ (200 ≤ resp.status ∧ resp.status ≤ 299)) :
    handleResponse resp chunks =
      .error ("API error (" ++ toString resp.status ++ "): " ++ resp.bodyText) ∧
    containsSubStr ("API error (" ++ toString resp.status ++ "): " ++ resp.bodyText)
      (toString resp.status) = true ∧
    containsSubStr ("API error (" ++ toString resp.status ++ "): " ++ resp.bodyText)
      resp.bodyText = true := by
  have hok : responseOk resp = false := by
    simp only [responseOk, Bool.and_eq_false_iff, decide_eq_false_iff_not]
    by_cases h1 : 200 ≤ resp.status
    · exact Or.inr fun h2 => h ⟨h1, h2⟩
    · exact Or.inl h1
  refine ⟨by simp [handleResponse, hok], ?_, ?_⟩
  · have hmsg : "API error (" ++ toString resp.status ++ "): " ++ resp.bodyText =
        "API error (" ++ toString resp.status ++ ("): " ++ resp.bodyText) := by
      simp [String.append_assoc]
    rw [hmsg]
    exact containsSubStr_of_decomp ("API error (") (toString resp.status)
      ("): " ++ resp.bodyText)
  · have hmsg : "API error (" ++ toString resp.status ++ "): " ++ resp.bodyText =
        ("API error (" ++ toString resp.status ++ "): ") ++ resp.bodyText ++ "" := by
      simp
    rw [hmsg]
    exact containsSubStr_of_decomp _ _ _

/-- Witness for C6 at status 403 with body "not allowed". -/
theorem non_success_error_detail_witness :
    handleResponse ⟨403, "Forbidden", none, "not allowed"⟩ [] =
      .error ("API error (403): not allowed") :=
  ((non_success_error_detail ⟨403, "Forbidden", none, "not allowed"⟩ []
    (by decide)).1).trans rfl

/-- C7: a tool name matching no manifest tool by exact name equality fails
with the not-found error, and the cached manifest is unchanged. -/
theorem tool_not_found (st : ServerState) (mf : Json) (ts : List Json)
    (toolName apiKey : String) (args : List (String × Json)) (resp : HttpResponse)
    (chunks : List String)
    (hm : st.manifest = some mf)
    (hts : mf.getField ("tools") = some (.arr ts))
    (habs : ∀ t ∈ ts, t.getField ("name") ≠ some (.str toolName)) :
    toolsCallStep st toolName args apiKey resp chunks =
      (.error ("Tool " ++ squote.toString ++ toolName ++ squote.toString ++ " not found"),
        st) := by
  have hfind : findTool mf toolName = none := by
    unfold findTool
    rw [hts]
    apply List.find?_eq_none.mpr
    intro t ht hp
    cases hh : t.getField ("name") with
    | none => rw [hh] at hp; simp at hp
    | some j =>
      cases j with
      | str s =>
        rw [hh] at hp
        simp only [beq_iff_eq] at hp
        exact habs t ht (by rw [hh, hp])
      | null => rw [hh] at hp; simp at hp
      | bool b => rw [hh] at hp; simp at hp
      | num r => rw [hh] at hp; simp at hp
      | arr l => rw [hh] at hp; simp at hp
      | obj o => rw [hh] at hp; simp at hp
  simp [toolsCallStep, hm, hfind]

/-- Witness for C7 on a concrete one-tool manifest and an absent name. -/
theorem tool_not_found_witness :
    toolsCallStep ⟨some (Json.obj [("tools", Json.arr [Json.obj [("name", Json.str "a")]])])⟩
        ("nope") [] ("k") ⟨200, "OK", none, ""⟩ [] =
      (.error ("Tool " ++ squote.toString ++ "nope" ++ squote.toString ++ " not found"),
        ⟨some (Json.obj [("tools", Json.arr [Json.obj [("name", Json.str "a")]])])⟩) := by
  apply tool_not_found _ (Json.obj [("tools", Json.arr [Json.obj [("name", Json.str "a")]])])
      [Json.obj [("name", Json.str "a")]] _ _ _ _ _ rfl rfl
  intro t ht
  rw [List.mem_singleton] at ht
  subst ht
  intro hcon
  have h1 : Json.str "a" = Json.str "nope" := Option.some.inj hcon
  have h2 : ("a" : String) = "nope" := by injection h1
  exact absurd h2 (by decide)

/-- C8 counterexample: on a success response whose body parses to a manifest
with an empty tools array, fetchManifest succeeds and caches that manifest;
the zero-tools failure is not raised by the fetch operation itself. -/
theorem fetch_empty_manifest_counterexample :
    fetchManifest ⟨none⟩ ("https://x")
        (.response ⟨200, "OK", some ("application/json"),
          "\x7b\"name\":\"demo\",\"tools\":[]\x7d"⟩) =
      (.ok (Json.obj [("name", Json.str "demo"), ("tools", Json.arr [])]),
        ⟨some (Json.obj [("name", Json.str "demo"), ("tools", Json.arr [])])⟩) ∧
    (Json.obj [("name", Json.str "demo"), ("tools", Json.arr [])]).getField ("tools") =
      some (Json.arr []) := ⟨rfl, rfl⟩

/-- C8 (amended): fetchManifest fails (with a connection error wrapping the
cause) when the endpoint is unreachable, the status is non-success, or the
body is not valid JSON, leaving the cached state unchanged; on success it
caches and returns the parsed manifest even when its tools are empty; the
zero-tools check is performed afterwards by start, which rejects an absent,
falsy, or zero-length tools sequence. -/
theorem fetch_manifest_errors (st : ServerState) (baseUrl msg : String)
    (r : HttpResponse) (j : Json) :
    (fetchManifest st baseUrl (.unreachable msg) =
      (.error ("Could not connect to " ++ baseUrl ++ "/mcp.json - " ++ msg), st)) ∧
    (¬ (200 ≤ r.status ∧ r.status ≤ 299) →
      fetchManifest st baseUrl (.response r) =
        (.error ("Could not connect to " ++ baseUrl ++ "/mcp.json - " ++
          "Failed to fetch manifest: " ++ toString r.status ++ " " ++ r.statusText), st)) ∧
    ((200 ≤ r.status ∧ r.status ≤ 299) → jsonParse r.bodyText = none →
      fetchManifest st baseUrl (.response r) =
        (.error ("Could not connect to " ++ baseUrl ++ "/mcp.json - " ++
          jsonSyntaxErrorMessage), st)) ∧
    ((200 ≤ r.status ∧ r.status ≤ 299) → jsonParse r.bodyText = some j →
      fetchManifest st baseUrl (.response r) = (.ok j, ⟨some j⟩)) ∧
    (j.getField ("tools") = some (.arr []) → jsTruthy j = true →
      startCheck (some j) = .error ("No tools found in MCP manifest")) ∧
    (startCheck none = .error ("No tools found in MCP manifest")) := by
  refine ⟨rfl, ?_, ?_, ?_, ?_, rfl⟩
  · intro h
    have hok : responseOk r = false := by
      simp only [responseOk, Bool.and_eq_false_iff, decide_eq_false_iff_not]
      by_cases h1 : 200 ≤ r.status
      · exact Or.inr fun h2 => h ⟨h1, h2⟩
      · exact Or.inl h1
    simp [fetchManifest, hok]
  · intro h hp
    have hok : responseOk r = true := by
      simp only [responseOk, Bool.and_eq_true, decide_eq_true_eq]
      exact h
    simp [fetchManifest, hok, hp]
  · intro h hp
    have hok : responseOk r = true := by
      simp only [responseOk, Bool.and_eq_true, decide_eq_true_eq]
      exact h
    simp [fetchManifest, hok, hp]
  · intro ht htr
    simp [startCheck, htr, ht, jsTruthy, jsLengthIsZero]

/-- Witness for the amended C8 theorem at concrete responses. -/
theorem fetch_manifest_errors_witness :
    fetchManifest ⟨none⟩ ("https://x") (.response ⟨500, "Oops", none, "nope"⟩) =
      (.error ("Could not connect to https://x/mcp.json - Failed to fetch manifest: 500 Oops"),
        ⟨none⟩) ∧
    fetchManifest ⟨none⟩ ("https://x") (.response ⟨200, "OK", none, "!"⟩) =
      (.error ("Could not connect to https://x/mcp.json - " ++ jsonSyntaxErrorMessage),
        ⟨none⟩) ∧
    fetchManifest ⟨none⟩ ("https://x") (.response ⟨200, "OK", none, "[1]"⟩) =
      (.ok (Json.arr [Json.num "1"]), ⟨some (Json.arr [Json.num "1"])⟩) ∧
    startCheck (some (Json.obj [("tools", Json.arr [])])) =
      .error ("No tools found in MCP manifest") := by
  refine ⟨?_, ?_, ?_, ?_⟩
  · exact ((fetch_manifest_errors ⟨none⟩ "https://x" "m" ⟨500, "Oops", none, "nope"⟩
      Json.null).2.1 (by decide)).trans rfl
  · exact ((fetch_manifest_errors ⟨none⟩ "https://x" "m" ⟨200, "OK", none, "!"⟩
      Json.null).2.2.1 (by decide) rfl).trans rfl
  · exact (fetch_manifest_errors ⟨none⟩ "https://x" "m" ⟨200, "OK", none, "[1]"⟩
      (Json.arr [Json.num "1"])).2.2.2.1 (by decide) rfl
  · exact (fetch_manifest_errors ⟨none⟩ "https://x" "m" ⟨200, "OK", none, "x"⟩
      (Json.obj [("tools", Json.arr [])])).2.2.2.2.1 rfl rfl

theorem classifyStep_perm (method : String) (st : ClassifyState) (kv : String × Json) :
    ((classifyStep method st kv).pathParams ++
      ((classifyStep method st kv).queryParams ++ (classifyStep method st kv).bodyParams)).Perm
      ((st.pathParams ++ (st.queryParams ++ st.bodyParams)) ++ [kv]) := by
  unfold classifyStep
  split
  · simp only [List.append_assoc]
    apply List.Perm.append_left
    simpa [List.append_assoc] using
      (@List.perm_append_comm _ [kv] (st.queryParams ++ st.bodyParams))
  · split
    · simp only [List.append_assoc]
      apply List.Perm.append_left
      apply List.Perm.append_left
      simpa using (@List.perm_append_comm _ [kv] st.bodyParams)
    · simp [List.append_assoc]

theorem classifyFold_perm (method : String) (args : List (String × Json)) :
    ∀ st : ClassifyState,
      ((args.foldl (classifyStep method) st).pathParams ++
        ((args.foldl (classifyStep method) st).queryParams ++
          (args.foldl (classifyStep method) st).bodyParams)).Perm
        ((st.pathParams ++ (st.queryParams ++ st.bodyParams)) ++ args) := by
  induction args with
  | nil => intro st; simp
  | cons kv rest ih =>
    intro st
    simp only [List.foldl_cons]
    refine (ih (classifyStep method st kv)).trans ?_
    refine (List.Perm.append_right rest (classifyStep_perm method st kv)).trans ?_
    simp [List.append_assoc]

/-- The three bucket lists of a classification are a permutation of the
argument list. -/
theorem classifyArgs_perm (url method : String) (args : List (String × Json)) :
    ((classifyArgs url method args).pathParams ++
      ((classifyArgs url method args).queryParams ++
        (classifyArgs url method args).bodyParams)).Perm args := by
  simpa using classifyFold_perm method args ⟨url, [], [], []⟩

theorem classifyFold_body_getdelete (method : String)
    (hm : (method == "GET" || method == "DELETE") = true) (args : List (String × Json)) :
    ∀ st : ClassifyState, (args.foldl (classifyStep method) st).bodyParams = st.bodyParams := by
  induction args with
  | nil => intro st; rfl
  | cons kv rest ih =>
    intro st
    simp only [List.foldl_cons]
    rw [ih]
    by_cases hc : containsSubStr st.requestUrl (placeholderOf kv.1) = true
    · simp [classifyStep, hc]
    · simp [classifyStep, hc, hm]

theorem classifyFold_query_other (method : String)
    (hm : (method == "GET" || method == "DELETE") = false) (args : List (String × Json)) :
    ∀ st : ClassifyState, (args.foldl (classifyStep method) st).queryParams = st.queryParams := by
  induction args with
  | nil => intro st; rfl
  | cons kv rest ih =>
    intro st
    simp only [List.foldl_cons]
    rw [ih]
    by_cases hc : containsSubStr st.requestUrl (placeholderOf kv.1) = true
    · simp [classifyStep, hc]
    · simp [classifyStep, hc, hm]

theorem classifyStep_nopath (m : String) (st : ClassifyState) (kv : String × Json)
    (hc : ¬ containsSubStr st.requestUrl (placeholderOf kv.1) = true) :
    (classifyStep m st kv).requestUrl = st.requestUrl ∧
    (classifyStep m st kv).pathParams = st.pathParams := by
  unfold classifyStep
  rw [if_neg hc]
  constructor <;> split <;> rfl

theorem classifyStep_indep (m1 m2 : String) (st1 st2 : ClassifyState) (kv : String × Json)
    (h1 : st1.requestUrl = st2.requestUrl) (h2 : st1.pathParams = st2.pathParams) :
    (classifyStep m1 st1 kv).requestUrl = (classifyStep m2 st2 kv).requestUrl ∧
    (classifyStep m1 st1 kv).pathParams = (classifyStep m2 st2 kv).pathParams := by
  by_cases hc : containsSubStr st1.requestUrl (placeholderOf kv.1) = true
  · have hc2 : containsSubStr st2.requestUrl (placeholderOf kv.1) = true := by
      rw [← h1]; exact hc
    unfold classifyStep
    rw [if_pos hc, if_pos hc2]
    exact ⟨by simp [h1], by simp [h2]⟩
  · have hc2 : ¬ containsSubStr st2.requestUrl (placeholderOf kv.1) = true := by
      rw [← h1]; exact hc
    have e1 := classifyStep_nopath m1 st1 kv hc
    have e2 := classifyStep_nopath m2 st2 kv hc2
    exact ⟨e1.1.trans (h1.trans e2.1.symm), e1.2.trans (h2.trans e2.2.symm)⟩

theorem classifyFold_indep (m1 m2 : String) (args : List (String × Json)) :
    ∀ st1 st2 : ClassifyState, st1.requestUrl = st2.requestUrl →
      st1.pathParams = st2.pathParams →
      (args.foldl (classifyStep m1) st1).requestUrl =
        (args.foldl (classifyStep m2) st2).requestUrl ∧
      (args.foldl (classifyStep m1) st1).pathParams =
        (args.foldl (classifyStep m2) st2).pathParams := by
  induction args with
  | nil => intro st1 st2 h1 h2; exact ⟨h1, h2⟩
  | cons kv rest ih =>
    intro st1 st2 h1 h2
    simp only [List.foldl_cons]
    have hstep := classifyStep_indep m1 m2 st1 st2 kv h1 h2
    exact ih _ _ hstep.1 hstep.2

/-- C5: under GET no argument reaches the body mapping and every argument not
classified as a path parameter reaches the query mapping; under POST the
converse; and path-parameter detection is independent of the method (a key
matching a placeholder at its processing step is a path parameter regardless
of method). -/
theorem classify_method_routing (url : String) (args : List (String × Json)) :
    ((classifyArgs url "GET" args).bodyParams = []) ∧
    ((classifyArgs url "POST" args).queryParams = []) ∧
    (∀ k, k ∈ args.map Prod.fst →
      k ∉ (classifyArgs url "GET" args).pathParams.map Prod.fst →
      k ∈ (classifyArgs url "GET" args).queryParams.map Prod.fst) ∧
    (∀ k, k ∈ args.map Prod.fst →
      k ∉ (classifyArgs url "POST" args).pathParams.map Prod.fst →
      k ∈ (classifyArgs url "POST" args).bodyParams.map Prod.fst) ∧
    (∀ m1 m2 : String,
      (classifyArgs url m1 args).requestUrl = (classifyArgs url m2 args).requestUrl ∧
      (classifyArgs url m1 args).pathParams = (classifyArgs url m2 args).pathParams) := by
  have hget : (classifyArgs url "GET" args).bodyParams = [] :=
    classifyFold_body_getdelete "GET" (by decide) args ⟨url, [], [], []⟩
  have hpost : (classifyArgs url "POST" args).queryParams = [] :=
    classifyFold_query_other "POST" (by decide) args ⟨url, [], [], []⟩
  refine ⟨hget, hpost, ?_, ?_, ?_⟩
  · intro k hk hnp
    have hperm := (classifyArgs_perm url "GET" args).map Prod.fst
    rw [hget] at hperm
    have hmem := hperm.mem_iff.mpr hk
    simp only [List.map_append, List.mem_append, List.append_nil, List.map_nil] at hmem
    rcases hmem with h | h
    · exact absurd h hnp
    · exact h
  · intro k hk hnp
    have hperm := (classifyArgs_perm url "POST" args).map Prod.fst
    rw [hpost] at hperm
    have hmem := hperm.mem_iff.mpr hk
    simp only [List.map_append, List.mem_append, List.map_nil] at hmem
    rcases hmem with h | h | h
    · exact absurd h hnp
    · exact absurd h (by simp)
    · exact h
  · intro m1 m2
    exact classifyFold_indep m1 m2 args ⟨url, [], [], []⟩ ⟨url, [], [], []⟩ rfl rfl

/-- Witness for C5 on a template with an id placeholder and one plain
argument. -/
theorem classify_method_routing_witness :
    (classifyArgs ("https://x/u/\x7bid\x7d") ("GET")
      [("id", Json.str "1"), ("q", Json.str "2")]).bodyParams = [] ∧
    (classifyArgs ("https://x/u/\x7bid\x7d") ("POST")
      [("id", Json.str "1"), ("q", Json.str "2")]).queryParams = [] ∧
    "q" ∈ (classifyArgs ("https://x/u/\x7bid\x7d") ("GET")
      [("id", Json.str "1"), ("q", Json.str "2")]).queryParams.map Prod.fst ∧
    "q" ∈ (classifyArgs ("https://x/u/\x7bid\x7d") ("POST")
      [("id", Json.str "1"), ("q", Json.str "2")]).bodyParams.map Prod.fst ∧
    (classifyArgs ("https://x/u/\x7bid\x7d") ("GET")
        [("id", Json.str "1"), ("q", Json.str "2")]).requestUrl =
      (classifyArgs ("https://x/u/\x7bid\x7d") ("POST")
        [("id", Json.str "1"), ("q", Json.str "2")]).requestUrl := by
  have h := classify_method_routing ("https://x/u/\x7bid\x7d")
    [("id", Json.str "1"), ("q", Json.str "2")]
  refine ⟨h.1, h.2.1, ?_, ?_, (h.2.2.2.2 ("GET") ("POST")).1⟩
  · exact h.2.2.1 "q" (by decide) (by decide)
  · exact h.2.2.2.1 "q" (by decide) (by decide)

/-- C9: invoking get_user of the demo manifest with id "42" issues
`GET https://x/users/42` with no query string and no body; in general the
query string is appended exactly when the query mapping is non-empty, and a
JSON body is attached exactly for POST/PUT/PATCH with a non-empty body
mapping. -/
theorem request_shape (apiKey url method : String) (args : List (String × Json)) :
    ((jsonParse ("\x7b\"name\":\"demo\",\"tools\":[\x7b\"name\":\"get_user\",\"inputSchema\":\x7b\x7d,\"handler\":\x7b\"method\":\"GET\",\"url\":\"https://x/users/\x7bid\x7d\"\x7d\x7d]\x7d")).bind
        (fun mf => invokeRequest mf ("pk") ("get_user") [("id", Json.str "42")]) =
      some
        { url := "https://x/users/42"
          method := "GET"
          headers :=
            [("Authorization", "Bearer pk"),
             ("Content-Type", "application/json"),
             ("User-Agent", "shov-mcp/1.0.0"),
             ("Accept", "application/json, text/event-stream")]
          body := none }) ∧
    ((classifyArgs url method args).queryParams = [] →
      (buildRequest apiKey url method args).url = (classifyArgs url method args).requestUrl) ∧
    ((classifyArgs url method args).queryParams ≠ [] →
      (buildRequest apiKey url method args).url =
        (classifyArgs url method args).requestUrl ++ "?" ++
          urlSearchParamsToString (classifyArgs url method args).queryParams) ∧
    ((method = "POST" ∨ method = "PUT" ∨ method = "PATCH") →
      (classifyArgs url method args).bodyParams ≠ [] →
      (buildRequest apiKey url method args).body =
        some (jsonStringify (.obj (classifyArgs url method args).bodyParams))) ∧
    (¬ (method = "POST" ∨ method = "PUT" ∨ method = "PATCH") →
      (buildRequest apiKey url method args).body = none) ∧
    ((classifyArgs url method args).bodyParams = [] →
      (buildRequest apiKey url method args).body = none) := by
  refine ⟨rfl, ?_, ?_, ?_, ?_, ?_⟩
  · intro hq
    simp [buildRequest, hq]
  · intro hq
    have hl : 0 < (classifyArgs url method args).queryParams.length :=
      List.length_pos.mpr hq
    simp [buildRequest, hl]
  · intro hmeth hb
    have hm : (method == "POST" || method == "PUT" || method == "PATCH") = true := by
      rcases hmeth with h | h | h <;> simp [h]
    have hl : 0 < (classifyArgs url method args).bodyParams.length :=
      List.length_pos.mpr hb
    simp [buildRequest, hm, hl]
  · intro hmeth
    have hm : (method == "POST" || method == "PUT" || method == "PATCH") = false := by
      simp only [not_or] at hmeth
      simp [hmeth.1, hmeth.2.1, hmeth.2.2]
    simp [buildRequest, hm]
  · intro hb
    simp [buildRequest, hb]

/-- Witness for C9 discharging each conditional at concrete inputs. -/
theorem request_shape_witness :
    (buildRequest ("k") ("https://x/u") ("GET") []).url = "https://x/u" ∧
    (buildRequest ("k") ("https://x/u") ("GET") [("q", Json.str "a")]).url =
      "https://x/u" ++ "?" ++
        urlSearchParamsToString (classifyArgs ("https://x/u") ("GET")
          [("q", Json.str "a")]).queryParams ∧
    (buildRequest ("k") ("https://x/u") ("POST") [("a", Json.str "b")]).body =
      some (jsonStringify (.obj (classifyArgs ("https://x/u") ("POST")
        [("a", Json.str "b")]).bodyParams)) ∧
    (buildRequest ("k") ("https://x/u") ("GET") [("q", Json.str "a")]).body = none ∧
    (buildRequest ("k") ("https://x/u") ("POST") []).body = none := by
  refine ⟨?_, ?_, ?_, ?_, ?_⟩
  · exact (request_shape ("k") ("https://x/u") ("GET") []).2.1 rfl
  · have hne : (classifyArgs ("https://x/u") ("GET")
        [("q", Json.str "a")]).queryParams ≠ [] := by
      rw [show (classifyArgs ("https://x/u") ("GET")
        [("q", Json.str "a")]).queryParams = [("q", Json.str "a")] from rfl]
      exact List.cons_ne_nil _ _
    exact (request_shape ("k") ("https://x/u") ("GET") [("q", Json.str "a")]).2.2.1 hne
  · have hne : (classifyArgs ("https://x/u") ("POST")
        [("a", Json.str "b")]).bodyParams ≠ [] := by
      rw [show (classifyArgs ("https://x/u") ("POST")
        [("a", Json.str "b")]).bodyParams = [("a", Json.str "b")] from rfl]
      exact List.cons_ne_nil _ _
    exact (request_shape ("k") ("https://x/u") ("POST") [("a", Json.str "b")]).2.2.2.1
      (Or.inl rfl) hne
  · exact (request_shape ("k") ("https://x/u") ("GET") [("q", Json.str "a")]).2.2.2.2.1
      (by decide)
  · exact (request_shape ("k") ("https://x/u") ("POST") []).2.2.2.2.2 rfl

theorem containsSub_exists {pat s : List Char} (h : containsSub pat s = true) :
    ∃ p q, s = p ++ (pat ++ q) := by
  induction s with
  | nil =>
    simp only [containsSub] at h
    exact ⟨[], [], by simp [List.isEmpty_iff.mp h]⟩
  | cons c cs ih =>
    simp only [containsSub, Bool.or_eq_true] at h
    rcases h with h | h
    · obtain ⟨t, ht⟩ := List.isPrefixOf_iff_prefix.mp h
      exact ⟨[], t, by simp [ht.symm]⟩
    · obtain ⟨p, q, hpq⟩ := ih h
      exact ⟨c :: p, q, by simp [hpq]⟩

theorem replaceFirst_spec (pat repl s : List Char) (hne : pat ≠ [])
    (h : containsSub pat s = true) :
    ∃ p q, s = p ++ (pat ++ q) ∧ replaceFirst pat repl s = p ++ (repl ++ q) ∧
      ∀ p2 q2, s = p2 ++ (pat ++ q2) → p.length ≤ p2.length := by
  induction s with
  | nil =>
    simp only [containsSub] at h
    exact absurd (List.isEmpty_iff.mp h) hne
  | cons c cs ih =>
    by_cases hp : List.isPrefixOf pat (c :: cs) = true
    · obtain ⟨t, ht⟩ := List.isPrefixOf_iff_prefix.mp hp
      refine ⟨[], t, by simp [ht.symm], ?_, fun p2 q2 _ => Nat.zero_le _⟩
      simp only [replaceFirst, hp, if_true, List.nil_append]
      rw [← ht, List.drop_left]
    · have hc : containsSub pat cs = true := by
        simp only [containsSub, Bool.or_eq_true] at h
        rcases h with h | h
        · exact absurd h hp
        · exact h
      obtain ⟨p, q, h1, h2, h3⟩ := ih hc
      refine ⟨c :: p, q, by simp [h1], ?_, ?_⟩
      · simp only [replaceFirst, hp, if_false, List.cons_append, Bool.false_eq_true, h2]
      · intro p2 q2 heq
        cases p2 with
        | nil =>
          exfalso
          apply hp
          rw [List.isPrefixOf_iff_prefix]
          exact ⟨q2, by simpa using heq.symm⟩
        | cons c2 p2t =>
          have hcs : cs = p2t ++ (pat ++ q2) := by
            injection heq with _ h
          exact Nat.succ_le_succ (h3 p2t q2 hcs)

theorem placeholderOf_toList (key : String) :
    (placeholderOf key).toList = lbrace :: (key.toList ++ [rbrace]) := by
  simp [placeholderOf, String.toList, String.data_append]
  rfl

theorem k_not_idtail (k : List Char) (hk : ∀ c ∈ k, c ≠ lbrace ∧ c ≠ rbrace)
    (hkid : k ≠ ['i', 'd']) (q y : List Char)
    (h : k ++ ([rbrace] ++ q) = ['i', 'd', rbrace] ++ y) : False := by
  cases k with
  | nil =>
    simp only [List.nil_append, List.cons_append] at h
    have : rbrace = 'i' := by injection h
    exact absurd this (by decide)
  | cons c1 k1 =>
    cases k1 with
    | nil =>
      simp only [List.cons_append, List.singleton_append] at h
      injection h with h1 h
      injection h with h2 h
      exact absurd h2 (by decide)
    | cons c2 k2 =>
      cases k2 with
      | nil =>
        simp only [List.cons_append, List.nil_append] at h
        injection h with h1 h
        injection h with h2 h
        exact hkid (by rw [h1, h2])
      | cons c3 k3 =>
        simp only [List.cons_append] at h
        injection h with h1 h
        injection h with h2 h
        injection h with h3 h
        exact absurd h3 (hk c3 (by simp)).2

theorem survive (k r p q x y : List Char)
    (hk : ∀ c ∈ k, c ≠ lbrace ∧ c ≠ rbrace)
    (hkid : k ≠ ['i', 'd'])
    (heq : p ++ ((lbrace :: (k ++ [rbrace])) ++ q) =
      x ++ (([lbrace, 'i', 'd', rbrace]) ++ y)) :
    ∃ x2 y2, p ++ (r ++ q) = x2 ++ (([lbrace, 'i', 'd', rbrace]) ++ y2) := by
  have hmain := List.append_eq_append_iff.mp heq
  rcases hmain with ⟨a, hx, hA⟩ | ⟨c', hp, hB⟩
  · -- x = p ++ a and pat1 ++ q = a ++ (idPat ++ y)
    have hA2 := List.append_eq_append_iff.mp hA
    rcases hA2 with ⟨b, hab, hq⟩ | ⟨b, hpat, hb⟩
    · -- a = pat1 ++ b and q = b ++ (idPat ++ y): occurrence inside q
      exact ⟨p ++ (r ++ b), y, by simp [hq, List.append_assoc]⟩
    · -- pat1 = a ++ b and idPat ++ y = b ++ q
      cases b with
      | nil =>
        -- q = idPat ++ y
        have hq : q = [lbrace, 'i', 'd', rbrace] ++ y := by simpa using hb.symm
        exact ⟨p ++ r, y, by simp [hq, List.append_assoc]⟩
      | cons d b' =>
        have hd : d = lbrace := by
          have h2s := hb.symm
          simp only [List.cons_append] at h2s
          injection h2s with h1 _
        subst hd
        cases a with
        | nil =>
          -- pat1 = lbrace :: b' as b; b = pat1; idPat ++ y = pat1 ++ q
          simp only [List.nil_append] at hpat
          have hb' : b' = k ++ [rbrace] := by
            injection hpat with _ h2
            exact h2.symm
          subst hb'
          exfalso
          apply k_not_idtail k hk hkid q y
          have h3 := hb
          simp only [List.cons_append, List.nil_append] at h3
          injection h3 with _ h4
          simpa [List.append_assoc] using h4.symm
        | cons e a'' =>
          -- pat1 = e :: (a'' ++ lbrace :: b') with e = lbrace
          exfalso
          simp only [List.cons_append] at hpat
          injection hpat with he htail
          -- htail : k ++ [rbrace] = a'' ++ lbrace :: b'
          have hmem : lbrace ∈ k ++ [rbrace] := by
            rw [htail]
            simp
          rcases List.mem_append.mp hmem with hm | hm
          · exact absurd rfl (hk lbrace hm).1
          · simp only [List.mem_singleton] at hm
            exact absurd hm (by decide)
  · -- p = x ++ c' and idPat ++ y = c' ++ (pat1 ++ q)
    have hB2 := List.append_eq_append_iff.mp hB
    rcases hB2 with ⟨b, hc', hy⟩ | ⟨b, hid, hb⟩
    · -- c' = idPat ++ b: occurrence inside p
      exact ⟨x, b ++ (r ++ q), by simp [hp, hc', List.append_assoc]⟩
    · -- idPat = c' ++ b and pat1 ++ q = b ++ y
      cases b with
      | nil =>
        -- idPat = c'
        have hc' : c' = [lbrace, 'i', 'd', rbrace] := by simpa using hid.symm
        exact ⟨x, r ++ q, by simp [hp, hc', List.append_assoc]⟩
      | cons d b' =>
        have hd : d = lbrace := by
          have h2s := hb.symm
          simp only [List.cons_append] at h2s
          injection h2s with h1 _
        subst hd
        cases c' with
        | nil =>
          -- idPat = lbrace :: b'; b = idPat; pat1 ++ q = idPat ++ y
          simp only [List.nil_append] at hid
          have hb' : b' = ['i', 'd', rbrace] := by
            injection hid with _ h2
            exact h2.symm
          subst hb'
          exfalso
          apply k_not_idtail k hk hkid q y
          have h3 := hb
          simp only [List.cons_append, List.nil_append] at h3
          injection h3 with _ h4
          simpa [List.append_assoc] using h4
        | cons e c'' =>
          exfalso
          simp only [List.cons_append] at hid
          injection hid with he htail
          -- htail : ['i','d',rbrace] = c'' ++ lbrace :: b'
          have hmem : lbrace ∈ ['i', 'd', rbrace] := by
            rw [htail]
            simp
          simp only [List.mem_cons, List.mem_singleton] at hmem
          rcases hmem with hm | hm | hm <;> exact absurd hm (by decide)

theorem toList_asString (l : List Char) : (List.asString l).toList = l := rfl

theorem idPat_toList : (placeholderOf ("id")).toList = [lbrace, 'i', 'd', rbrace] := by
  rw [placeholderOf_toList]
  rfl

theorem classifyStep_preserves_id (m : String) (st : ClassifyState) (kv : String × Json)
    (hkey : ∀ c ∈ kv.1.toList, c ≠ lbrace ∧ c ≠ rbrace)
    (hkid : kv.1 ≠ "id")
    (h : containsSubStr st.requestUrl (placeholderOf ("id")) = true) :
    containsSubStr (classifyStep m st kv).requestUrl (placeholderOf ("id")) = true := by
  by_cases hc : containsSubStr st.requestUrl (placeholderOf kv.1) = true
  · unfold classifyStep
    rw [if_pos hc]
    show containsSubStr (replaceFirstStr st.requestUrl (placeholderOf kv.1)
      (encodeURIComponent (jsToString kv.2))) (placeholderOf ("id")) = true
    unfold containsSubStr at h hc ⊢
    unfold replaceFirstStr
    rw [toList_asString]
    obtain ⟨p, q, h1, h2, _⟩ := replaceFirst_spec ((placeholderOf kv.1).toList)
      ((encodeURIComponent (jsToString kv.2)).toList) (st.requestUrl.toList)
      (by rw [placeholderOf_toList]; exact List.cons_ne_nil _ _) hc
    obtain ⟨x, y, hxy⟩ := containsSub_exists h
    have hkid2 : kv.1.toList ≠ ['i', 'd'] := by
      intro hcon
      apply hkid
      apply String.ext
      rw [show kv.1.data = kv.1.toList from rfl, hcon]
    have heq : p ++ ((lbrace :: (kv.1.toList ++ [rbrace])) ++ q) =
        x ++ ([lbrace, 'i', 'd', rbrace] ++ y) := by
      rw [← placeholderOf_toList]
      exact h1.symm.trans hxy
    obtain ⟨x2, y2, hx2⟩ := survive kv.1.toList
      ((encodeURIComponent (jsToString kv.2)).toList) p q x y hkey hkid2 heq
    rw [h2, idPat_toList, hx2]
    exact containsSub_of_decomp _ _ _
  · have hnp := classifyStep_nopath m st kv hc
    rw [hnp.1]
    exact h

theorem classifyFold_preserves_id (m : String) (args : List (String × Json))
    (hkeys : ∀ kv ∈ args, (∀ c ∈ kv.1.toList, c ≠ lbrace ∧ c ≠ rbrace) ∧ kv.1 ≠ "id") :
    ∀ st : ClassifyState, containsSubStr st.requestUrl (placeholderOf ("id")) = true →
      containsSubStr (args.foldl (classifyStep m) st).requestUrl
        (placeholderOf ("id")) = true := by
  induction args with
  | nil => intro st h; exact h
  | cons kv rest ih =>
    intro st h
    simp only [List.foldl_cons]
    have hkv := hkeys kv (by simp)
    exact ih (fun kv2 h2 => hkeys kv2 (by simp [h2]))
      (classifyStep m st kv) (classifyStep_preserves_id m st kv hkv.1 hkv.2 h)

theorem classifyStep_query_keys (m : String) (st : ClassifyState) (kv : String × Json)
    (k : String) (h : k ∈ (classifyStep m st kv).queryParams.map Prod.fst) :
    k ∈ st.queryParams.map Prod.fst ∨ k = kv.1 := by
  unfold classifyStep at h
  split at h
  · exact Or.inl h
  · split at h
    · simp only [List.map_append, List.mem_append, List.map_cons, List.map_nil,
        List.mem_singleton] at h
      exact h
    · exact Or.inl h

theorem classifyStep_body_keys (m : String) (st : ClassifyState) (kv : String × Json)
    (k : String) (h : k ∈ (classifyStep m st kv).bodyParams.map Prod.fst) :
    k ∈ st.bodyParams.map Prod.fst ∨ k = kv.1 := by
  unfold classifyStep at h
  split at h
  · exact Or.inl h
  · split at h
    · exact Or.inl h
    · simp only [List.map_append, List.mem_append, List.map_cons, List.map_nil,
        List.mem_singleton] at h
      exact h

theorem classifyStep_path_mono (m : String) (st : ClassifyState) (kv : String × Json)
    (k : String) (h : k ∈ st.pathParams.map Prod.fst) :
    k ∈ (classifyStep m st kv).pathParams.map Prod.fst := by
  unfold classifyStep
  split
  · simp only [List.map_append, List.mem_append]
    exact Or.inl h
  · split <;> exact h

theorem classifyFold_keys (m : String) (args : List (String × Json)) :
    ∀ (st : ClassifyState) (k : String),
      (k ∈ (args.foldl (classifyStep m) st).queryParams.map Prod.fst →
        k ∈ st.queryParams.map Prod.fst ∨ k ∈ args.map Prod.fst) ∧
      (k ∈ (args.foldl (classifyStep m) st).bodyParams.map Prod.fst →
        k ∈ st.bodyParams.map Prod.fst ∨ k ∈ args.map Prod.fst) ∧
      (k ∈ st.pathParams.map Prod.fst →
        k ∈ (args.foldl (classifyStep m) st).pathParams.map Prod.fst) := by
  induction args with
  | nil => intro st k; exact ⟨fun h => Or.inl h, fun h => Or.inl h, id⟩
  | cons kv rest ih =>
    intro st k
    simp only [List.foldl_cons, List.map_cons, List.mem_cons]
    refine ⟨?_, ?_, ?_⟩
    · intro h
      rcases (ih (classifyStep m st kv) k).1 h with h2 | h2
      · rcases classifyStep_query_keys m st kv k h2 with h3 | h3
        · exact Or.inl h3
        · exact Or.inr (Or.inl h3)
      · exact Or.inr (Or.inr h2)
    · intro h
      rcases (ih (classifyStep m st kv) k).2.1 h with h2 | h2
      · rcases classifyStep_body_keys m st kv k h2 with h3 | h3
        · exact Or.inl h3
        · exact Or.inr (Or.inl h3)
      · exact Or.inr (Or.inr h2)
    · intro h
      exact (ih (classifyStep m st kv) k).2.2 (classifyStep_path_mono m st kv k h)

theorem classifyStep_id_branch (m : String) (st : ClassifyState) (v : Json)
    (hc : containsSubStr st.requestUrl (placeholderOf ("id")) = true) :
    (classifyStep m st ("id", v)).pathParams = st.pathParams ++ [("id", v)] ∧
    (classifyStep m st ("id", v)).queryParams = st.queryParams ∧
    (classifyStep m st ("id", v)).bodyParams = st.bodyParams := by
  unfold classifyStep
  rw [if_pos hc]
  exact ⟨rfl, rfl, rfl⟩

/-- C3 counterexample: with an argument key containing brace characters, an
earlier substitution destroys the id placeholder, so id lands in the query
mapping although the template contains the placeholder and the argument map
contains id with duplicate-free keys. -/
theorem classify_partition_counterexample :
    containsSubStr ("a\x7bbb\x7d\x7bid\x7d") (placeholderOf ("id")) = true ∧
    (classifyArgs ("a\x7bbb\x7d\x7bid\x7d") ("GET")
      [("bb\x7d\x7bid", Json.str "x"), ("id", Json.str "42")]).queryParams =
      [("id", Json.str "42")] ∧
    (classifyArgs ("a\x7bbb\x7d\x7bid\x7d") ("GET")
      [("bb\x7d\x7bid", Json.str "x"), ("id", Json.str "42")]).pathParams =
      [("bb\x7d\x7bid", Json.str "x")] := ⟨rfl, rfl, rfl⟩

/-- C3 (amended): classification always partitions the arguments — the three
bucket lists together are a permutation of the argument list, and with
duplicate-free keys every argument key lands in exactly one bucket; moreover,
provided no argument key contains a curly brace, for every template containing
the id placeholder and duplicate-free argument map containing id, the id key
is classified as a path parameter and never appears in the query or body
mappings. -/
theorem classify_partition (url m : String) (args : List (String × Json)) :
    ((classifyArgs url m args).pathParams ++
      ((classifyArgs url m args).queryParams ++
        (classifyArgs url m args).bodyParams)).Perm args ∧
    ((args.map Prod.fst).Nodup → ∀ k, k ∈ args.map Prod.fst →
      ((k ∈ (classifyArgs url m args).pathParams.map Prod.fst ∧
        k ∉ (classifyArgs url m args).queryParams.map Prod.fst ∧
        k ∉ (classifyArgs url m args).bodyParams.map Prod.fst) ∨
       (k ∉ (classifyArgs url m args).pathParams.map Prod.fst ∧
        k ∈ (classifyArgs url m args).queryParams.map Prod.fst ∧
        k ∉ (classifyArgs url m args).bodyParams.map Prod.fst) ∨
       (k ∉ (classifyArgs url m args).pathParams.map Prod.fst ∧
        k ∉ (classifyArgs url m args).queryParams.map Prod.fst ∧
        k ∈ (classifyArgs url m args).bodyParams.map Prod.fst))) ∧
    ((∀ kv ∈ args, ∀ c ∈ kv.1.toList, c ≠ lbrace ∧ c ≠ rbrace) →
      (args.map Prod.fst).Nodup →
      containsSubStr url (placeholderOf ("id")) = true →
      "id" ∈ args.map Prod.fst →
      ("id" ∈ (classifyArgs url m args).pathParams.map Prod.fst ∧
       "id" ∉ (classifyArgs url m args).queryParams.map Prod.fst ∧
       "id" ∉ (classifyArgs url m args).bodyParams.map Prod.fst)) := by
  refine ⟨classifyArgs_perm url m args, ?_, ?_⟩
  · intro hnodup k hk
    have hcnt := ((classifyArgs_perm url m args).map Prod.fst).count_eq k
    simp only [List.map_append, List.count_append] at hcnt
    rw [List.count_eq_one_of_mem hnodup hk] at hcnt
    by_cases h1 : k ∈ (classifyArgs url m args).pathParams.map Prod.fst <;>
      by_cases h2 : k ∈ (classifyArgs url m args).queryParams.map Prod.fst <;>
      by_cases h3 : k ∈ (classifyArgs url m args).bodyParams.map Prod.fst
    · exfalso
      have c1 := List.count_pos_iff.mpr h1
      have c2 := List.count_pos_iff.mpr h2
      omega
    · exfalso
      have c1 := List.count_pos_iff.mpr h1
      have c2 := List.count_pos_iff.mpr h2
      omega
    · exfalso
      have c1 := List.count_pos_iff.mpr h1
      have c3 := List.count_pos_iff.mpr h3
      omega
    · exact Or.inl ⟨h1, h2, h3⟩
    · exfalso
      have c2 := List.count_pos_iff.mpr h2
      have c3 := List.count_pos_iff.mpr h3
      omega
    · exact Or.inr (Or.inl ⟨h1, h2, h3⟩)
    · exact Or.inr (Or.inr ⟨h1, h2, h3⟩)
    · exfalso
      have c1 := List.count_eq_zero.mpr h1
      have c2 := List.count_eq_zero.mpr h2
      have c3 := List.count_eq_zero.mpr h3
      omega
  · intro hbr hnodup hurl hidmem
    obtain ⟨kv0, hkv0mem, hkv0⟩ := List.mem_map.mp hidmem
    obtain ⟨pre, post, hsplit⟩ := List.mem_iff_append.mp hkv0mem
    obtain ⟨k0, v⟩ := kv0
    simp only at hkv0
    subst hkv0
    have hkeys : args.map Prod.fst = pre.map Prod.fst ++ "id" :: post.map Prod.fst := by
      rw [hsplit]
      simp
    have hnid : "id" ∉ pre.map Prod.fst ∧ "id" ∉ post.map Prod.fst := by
      rw [hkeys] at hnodup
      have h5 := List.nodup_middle.mp hnodup
      have h6 := List.nodup_cons.mp h5
      exact ⟨fun hm => h6.1 (List.mem_append.mpr (Or.inl hm)),
             fun hm => h6.1 (List.mem_append.mpr (Or.inr hm))⟩
    have hfold : classifyArgs url m args =
        post.foldl (classifyStep m)
          (classifyStep m (pre.foldl (classifyStep m) ⟨url, [], [], []⟩) ("id", v)) := by
      rw [show classifyArgs url m args = args.foldl (classifyStep m) ⟨url, [], [], []⟩
          from rfl, hsplit, List.foldl_append, List.foldl_cons]
    have hc1 : containsSubStr (pre.foldl (classifyStep m)
        ⟨url, [], [], []⟩).requestUrl (placeholderOf ("id")) = true := by
      apply classifyFold_preserves_id m pre ?_ ⟨url, [], [], []⟩ hurl
      intro kv hkvmem
      refine ⟨hbr kv (by rw [hsplit]; simp [hkvmem]), ?_⟩
      intro hcon
      apply hnid.1
      rw [← hcon]
      exact List.mem_map.mpr ⟨kv, hkvmem, rfl⟩
    have hstep := classifyStep_id_branch m (pre.foldl (classifyStep m) ⟨url, [], [], []⟩)
      v hc1
    have hq1 : ∀ k2, k2 ∈ (pre.foldl (classifyStep m)
        ⟨url, [], [], []⟩).queryParams.map Prod.fst → k2 ∈ pre.map Prod.fst := by
      intro k2 hkq
      rcases (classifyFold_keys m pre ⟨url, [], [], []⟩ k2).1 hkq with h | h
      · simp at h
      · exact h
    have hb1 : ∀ k2, k2 ∈ (pre.foldl (classifyStep m)
        ⟨url, [], [], []⟩).bodyParams.map Prod.fst → k2 ∈ pre.map Prod.fst := by
      intro k2 hkb
      rcases (classifyFold_keys m pre ⟨url, [], [], []⟩ k2).2.1 hkb with h | h
      · simp at h
      · exact h
    rw [hfold]
    refine ⟨?_, ?_, ?_⟩
    · apply (classifyFold_keys m post _ "id").2.2
      rw [hstep.1]
      simp
    · intro hmem
      rcases (classifyFold_keys m post _ "id").1 hmem with h | h
      · rw [hstep.2.1] at h
        exact hnid.1 (hq1 "id" h)
      · exact hnid.2 h
    · intro hmem
      rcases (classifyFold_keys m post _ "id").2.1 hmem with h | h
      · rw [hstep.2.2] at h
        exact hnid.1 (hb1 "id" h)
      · exact hnid.2 h

/-- Witness for the amended C3 theorem on a concrete template and arguments. -/
theorem classify_partition_witness :
    ((classifyArgs ("u/\x7bid\x7d") ("GET")
        [("id", Json.str "1"), ("b", Json.str "2")]).pathParams ++
      ((classifyArgs ("u/\x7bid\x7d") ("GET")
        [("id", Json.str "1"), ("b", Json.str "2")]).queryParams ++
       (classifyArgs ("u/\x7bid\x7d") ("GET")
        [("id", Json.str "1"), ("b", Json.str "2")]).bodyParams)).Perm
      [("id", Json.str "1"), ("b", Json.str "2")] ∧
    "b" ∈ (classifyArgs ("u/\x7bid\x7d") ("GET")
      [("id", Json.str "1"), ("b", Json.str "2")]).queryParams.map Prod.fst ∧
    "id" ∈ (classifyArgs ("u/\x7bid\x7d") ("GET")
      [("id", Json.str "1"), ("b", Json.str "2")]).pathParams.map Prod.fst ∧
    "id" ∉ (classifyArgs ("u/\x7bid\x7d") ("GET")
      [("id", Json.str "1"), ("b", Json.str "2")]).queryParams.map Prod.fst := by
  have h := classify_partition ("u/\x7bid\x7d") ("GET")
    [("id", Json.str "1"), ("b", Json.str "2")]
  have h3 := h.2.2 (by decide) (by decide) rfl (by decide)
  refine ⟨h.1, ?_, h3.1, h3.2.1⟩
  have h2 := h.2.1 (by decide) "b" (by decide)
  rcases h2 with ⟨hm, _, _⟩ | ⟨_, hm, _⟩ | ⟨_, _, hm⟩
  · exact absurd hm (by decide)
  · exact hm
  · exact absurd hm (by decide)

/-- C4 counterexample: JavaScript `replace` with a string pattern substitutes
only the first occurrence, so a template with two id placeholders resolves to
a URL that still contains the literal placeholder. -/
theorem resolved_url_counterexample :
    (classifyArgs ("https://x/users/\x7bid\x7d/\x7bid\x7d") ("GET")
      [("id", Json.str "42")]).requestUrl = "https://x/users/42/\x7bid\x7d" ∧
    containsSubStr ("https://x/users/42/\x7bid\x7d") (placeholderOf ("id")) = true ∧
    containsSubStr ("https://x/users/\x7bid\x7d/\x7bid\x7d")
      (placeholderOf ("id")) = true := ⟨rfl, rfl, rfl⟩

/-- C4 (amended): for a template containing the id placeholder and the
single-key argument map mapping id to v, classification substitutes the
percent-encoded value for the first occurrence of the placeholder (the
decomposition with the shortest prefix); occurrences beyond the first are not
substituted, so the resolved URL can retain the literal placeholder. -/
theorem resolved_url_first_occurrence (url m : String) (v : Json)
    (h : containsSubStr url (placeholderOf ("id")) = true) :
    ∃ p q, url.toList = p ++ ((placeholderOf ("id")).toList ++ q) ∧
      (classifyArgs url m [("id", v)]).requestUrl.toList =
        p ++ ((encodeURIComponent (jsToString v)).toList ++ q) ∧
      (∀ p2 q2, url.toList = p2 ++ ((placeholderOf ("id")).toList ++ q2) →
        p.length ≤ p2.length) ∧
      (classifyArgs url m [("id", v)]).pathParams = [("id", v)] ∧
      (classifyArgs url m [("id", v)]).queryParams = [] ∧
      (classifyArgs url m [("id", v)]).bodyParams = [] := by
  have hS := h
  unfold containsSubStr at hS
  obtain ⟨p, q, h1, h2, h3⟩ := replaceFirst_spec ((placeholderOf ("id")).toList)
    ((encodeURIComponent (jsToString v)).toList) url.toList
    (by rw [placeholderOf_toList]; exact List.cons_ne_nil _ _) hS
  have hstep : classifyArgs url m [("id", v)] =
      { requestUrl := replaceFirstStr url (placeholderOf ("id"))
          (encodeURIComponent (jsToString v)),
        pathParams := [("id", v)], queryParams := [], bodyParams := [] } := by
    show classifyStep m ⟨url, [], [], []⟩ ("id", v) = _
    unfold classifyStep
    rw [if_pos h]
    rfl
  refine ⟨p, q, h1, ?_, h3, by rw [hstep], by rw [hstep], by rw [hstep]⟩
  rw [hstep]
  show (replaceFirstStr url (placeholderOf ("id"))
    (encodeURIComponent (jsToString v))).toList = _
  unfold replaceFirstStr
  rw [toList_asString]
  exact h2

/-- Witness for the amended C4 theorem at a concrete template and value. -/
theorem resolved_url_first_occurrence_witness :
    ∃ p q, ("https://x/u/\x7bid\x7d" : String).toList =
        p ++ ((placeholderOf ("id")).toList ++ q) ∧
      (classifyArgs ("https://x/u/\x7bid\x7d") ("GET")
          [("id", Json.str "42")]).requestUrl.toList =
        p ++ ((encodeURIComponent (jsToString (Json.str "42"))).toList ++ q) ∧
      (∀ p2 q2, ("https://x/u/\x7bid\x7d" : String).toList =
          p2 ++ ((placeholderOf ("id")).toList ++ q2) → p.length ≤ p2.length) ∧
      (classifyArgs ("https://x/u/\x7bid\x7d") ("GET")
        [("id", Json.str "42")]).pathParams = [("id", Json.str "42")] ∧
      (classifyArgs ("https://x/u/\x7bid\x7d") ("GET")
        [("id", Json.str "42")]).queryParams = [] ∧
      (classifyArgs ("https://x/u/\x7bid\x7d") ("GET")
        [("id", Json.str "42")]).bodyParams = [] :=
  resolved_url_first_occurrence ("https://x/u/\x7bid\x7d") ("GET") (Json.str "42") rfl
